import Mathlib

/-!
Verification development for the library-matching subsystem of
`src/streamlit_app.py` (Mapping Moral Logic).

The Python source is shallowly embedded: library items become Lean
structures; the embedding service and the generation service become
function parameters (`Option` / `Except` model their failure by
exception); every call site that issues an external request also
returns an explicit trace of the requests it issued, so that claims
about "no external call" can be stated and proved.
-/

namespace MoralLogic

/-- Model of a `sample_claim` / `reflection` JSON field, which the source
treats as either a bare string or a list of strings. -/
inductive StrOrList where
  | str (s : String)
  | list (l : List String)
deriving DecidableEq

/-- A general principle from `library.json`: keys `name` and `description`,
read with `e.get("name", "")` / `e.get("description", "")` (same default
at every call site, so the fields are plain strings with missing ↦ ""). -/
structure Principle where
  name : String
  description : String
deriving DecidableEq

/-- A topic entry from `library.json`.  `topic` is kept as an `Option`
because the source reads it with different defaults at different call
sites (`e.get("topic", "")` when building the index,
`item.get("topic", "entry")` when composing the hint).  `tags` and
`questions` model `e.get(k, []) or []` (missing/None ↦ `[]`). -/
structure Entry where
  topic : Option String
  tags : List String
  sample_claim : StrOrList
  reflection : StrOrList
  questions : List String
deriving DecidableEq

/-- The loaded library: top-level keys `entries` and `general_principles`,
read with `lib.get(k, [])`. -/
structure Library where
  entries : List Entry
  general_principles : List Principle
deriving DecidableEq

/-- A reference to the originating library item stored in an index record
(the Python code stores the raw dict). -/
inductive LibItem where
  | ofEntry (e : Entry)
  | ofPrinciple (p : Principle)
deriving DecidableEq

/-- One record of `LIBRARY_EMBEDS`: the dict
`{"kind": section, "item": e, "embedding": emb}`. -/
structure IndexedItem where
  kind : String
  item : LibItem
  embedding : List ℝ

/-- Python `str.strip()` on both ends (whitespace characters). -/
def pyStrip (s : String) : String :=
  String.mk (((s.data.dropWhile Char.isWhitespace).reverse.dropWhile Char.isWhitespace).reverse)

/-- Python `" ".join(bits)`. -/
def joinSpace : List String → String
  | [] => ""
  | [s] => s
  | s :: rest => s ++ " " ++ joinSpace rest

/-- Model of `np.dot(a, b)` for the 1-D vectors used by the source. -/
def dot : List ℝ → List ℝ → ℝ
  | a :: as, b :: bs => a * b + dot as bs
  | _, _ => 0

/-- Sum of squares of the components, the quantity under the square root
in `np.linalg.norm`. -/
def sumSq : List ℝ → ℝ
  | [] => 0
  | a :: as => a * a + sumSq as

/-- Model of `np.linalg.norm(a)`: Euclidean norm. -/
noncomputable def norm2 (a : List ℝ) : ℝ :=
  Real.sqrt (sumSq a)

/-- Translation of `cosine_similarity` (src/streamlit_app.py:139-142):
`np.dot(a, b) / (np.linalg.norm(a) * np.linalg.norm(b))`, with no guard
on the denominator. -/
noncomputable def cosine_similarity (a b : List ℝ) : ℝ :=
  dot a b / (norm2 a * norm2 b)

/-- Coercion applied to `sample_claim` in `build_library_embeddings`:
`if isinstance(sc, str): sc = [sc]` (a bare string becomes a one-element
list; the subsequent `sc or []` is the identity on the coerced list). -/
def scList : StrOrList → List String
  | .str s => [s]
  | .list l => l

/-- The `text_bits` accumulated for one item of a given section in
`build_library_embeddings` (src/streamlit_app.py:154-166).  The two
cross cases (an item carried under the other section label) reproduce
the Python `.get` defaults on a dict that lacks those keys. -/
def textBits (sect : String) (it : LibItem) : List String :=
  if sect = "entry" then
    match it with
    | .ofEntry e => [e.topic.getD "", joinSpace e.tags] ++ scList e.sample_claim
    | .ofPrinciple _ => ["", ""]
  else
    match it with
    | .ofPrinciple p => [p.name, p.description]
    | .ofEntry _ => ["", ""]

/-- The composite text of one item: `" ".join(text_bits).strip()`. -/
def itemText (pair : String × LibItem) : String :=
  pyStrip (joinSpace (textBits pair.1 pair.2))

/-- The body of the loop of `build_library_embeddings`
(src/streamlit_app.py:153-185) over the flattened
(section, item) pairs.  First result component: the accumulated index
records; second component: the trace of texts sent to the embedding
service (`client.embeddings.create` is issued for every non-empty
composite text; a `none` answer models the call raising, in which case
the item is skipped with a warning). -/
def processItems (embed : String → Option (List ℝ)) :
    List (String × LibItem) → List IndexedItem × List String
  | [] => ([], [])
  | pair :: rest =>
    let joined := itemText pair
    let r := processItems embed rest
    if joined = "" then r
    else
      match embed joined with
      | some emb => (⟨pair.1, pair.2, emb⟩ :: r.1, joined :: r.2)
      | none => (r.1, joined :: r.2)

/-- Translation of `build_library_embeddings` (src/streamlit_app.py:144-185):
the loop header `for section, entries in [("entry", lib.get("entries", [])),
("principle", lib.get("general_principles", []))]` flattens to all entries
(in file order) followed by all principles (in file order).  The guard
`if not lib or not isinstance(lib, dict): return []` coincides with the
empty-library case of the loop. -/
def build_library_embeddings (embed : String → Option (List ℝ)) (lib : Library) :
    List IndexedItem × List String :=
  processItems embed
    (lib.entries.map (fun e => ("entry", LibItem.ofEntry e))
      ++ lib.general_principles.map (fun p => ("principle", LibItem.ofPrinciple p)))

/-- Modelled from the spec and the `@st.cache_resource` decorator on
`build_library_embeddings` (src/streamlit_app.py:144): the framework
memoizes the function by its argument, so a repeated call with an equal
library returns the cached record list without running the body.  The
cache is an explicit association list from libraries to built indexes;
the trace component again lists the embedding requests issued. -/
def buildCached (embed : String → Option (List ℝ))
    (cache : List (Library × List IndexedItem)) (lib : Library) :
    List IndexedItem × List (Library × List IndexedItem) × List String :=
  match cache.find? (fun p => p.1 = lib) with
  | some p => (p.2, cache, [])
  | none =>
    let r := build_library_embeddings embed lib
    (r.1, (lib, r.1) :: cache, r.2)

/-- The scan loop of `match_category` (src/streamlit_app.py:206-212):
running best record and best score, updated on strict improvement. -/
noncomputable def scanLoop (q : List ℝ) :
    List IndexedItem → Option IndexedItem → ℝ → Option IndexedItem × ℝ
  | [], best, best_score => (best, best_score)
  | rec :: rest, best, best_score =>
    let sim := cosine_similarity q rec.embedding
    if best_score < sim then scanLoop q rest (some rec) sim
    else scanLoop q rest best best_score

/-- The final value of `best_score` in `match_category`: the fold of
`max` over the similarity of every index record, started at `-1`. -/
noncomputable def best_score_of (q : List ℝ) (index : List IndexedItem) : ℝ :=
  (index.map (fun rec => cosine_similarity q rec.embedding)).foldl max (-1)

/-- Translation of `match_category` (src/streamlit_app.py:189-219).
`embed` models `client.embeddings.create` on the query (`none` = the
call raised); `index` is `LIBRARY_EMBEDS`.  First result component: the
returned value (`Some (kind, item)` or `None`); second component: the
trace of texts sent to the embedding service. -/
noncomputable def match_category (embed : String → Option (List ℝ))
    (index : List IndexedItem) (text : String) (threshold : ℝ := 0.70) :
    Option (String × LibItem) × List String :=
  if text = "" || index.isEmpty then (none, [])
  else
    match embed text with
    | none => (none, [text])
    | some q_emb =>
      let r := scanLoop q_emb index none (-1)
      match r.1 with
      | some best => if threshold ≤ r.2 then (some (best.kind, best.item), [text]) else (none, [text])
      | none => (none, [text])

/-- Translation of the hint-composition block of the submit handler
(src/streamlit_app.py:238-263), as a function of the `match_category`
result.  Returns the pair (label, library_hint).  The cross cases
(`kind` disagreeing with the stored item) reproduce the Python `.get`
defaults on a dict lacking the accessed keys. -/
def library_hint (m : Option (String × LibItem)) : String × String :=
  match m with
  | some (kind, item) =>
    if kind = "entry" then
      let topic := match item with | .ofEntry e => e.topic.getD "entry" | .ofPrinciple _ => "entry"
      let label := "Library-based (" ++ topic ++ ")"
      let qs := match item with | .ofEntry e => e.questions | .ofPrinciple _ => []
      let questions_hint := joinSpace (qs.take 2)
      let refl := match item with | .ofEntry e => e.reflection | .ofPrinciple _ => .str ""
      let reflection_hint := match refl with
        | .str s => s
        | .list l => joinSpace (l.take 2)
      (label, label ++ ": Use the entry’s spirit. Paraphrase briefly, then ask one or two open-ended questions in this spirit: " ++ questions_hint ++ ". (Background for you, not to quote: " ++ reflection_hint ++ ")")
    else
      let name := match item with | .ofPrinciple p => p.name | .ofEntry _ => ""
      let desc := match item with | .ofPrinciple p => p.description | .ofEntry _ => ""
      let label := "Library-based (principle: " ++ name ++ ")"
      (label, label ++ ": Ground the reflection in this principle’s description. (Background for you, not to quote: " ++ desc ++ ")")
  | none =>
    let label := "Inferred (no close library match)"
    (label, label ++ ": No obvious library match; proceed normally.")

/-- Truncation of a reflection value to its first two fragments, used to
state that `library_hint` reads at most that much of the reflection. -/
def reflTake2 : StrOrList → StrOrList
  | .str s => .str s
  | .list l => .list (l.take 2)

/-- The per-session usage counter `st.session_state.requests_today`. -/
structure SessionState where
  requests_today : Nat
deriving DecidableEq

/-- src/streamlit_app.py:62. -/
def DAILY_LIMIT : Nat := 50

/-- One external call issued while handling a submission: an embedding
request for a text, or a chat-completion request carrying the composed
hint and the user input. -/
inductive ExtCall where
  | embedReq (text : String)
  | genReq (hint : String) (userInput : String)
deriving DecidableEq

/-- The user-text payload of an external call. -/
def callInput : ExtCall → String
  | .embedReq s => s
  | .genReq _ s => s

/-- The outcome the handler displays for one press of the button. -/
inductive HandlerResult where
  | limitError (msg : String)
  | emptyWarning (msg : String)
  | response (output : String)
deriving DecidableEq

/-- The truncation step of the submit handler (src/streamlit_app.py:232-234):
`user_input = prompt.strip()`, then characters beyond 4000 are cut and a
marker is appended. -/
def truncateInput (prompt : String) : String :=
  let user_input := pyStrip prompt
  if 4000 < user_input.length then
    String.mk (user_input.data.take 4000) ++ "\n\n[Truncated for length]"
  else user_input

/-- Translation of the `if go:` submit handler (src/streamlit_app.py:223-278).
`complete` models `client.chat.completions.create` applied to the
library hint and the user input (the constant `SYSTEM_PROMPT` message is
elided; `.error e` models the call raising `e`).  Returns the displayed
result, the new session state, and the trace of external calls issued in
order. -/
noncomputable def handleGo (embed : String → Option (List ℝ))
    (complete : String → String → Except String String)
    (index : List IndexedItem) (st : SessionState) (prompt : String) :
    HandlerResult × SessionState × List ExtCall :=
  if DAILY_LIMIT ≤ st.requests_today then
    (.limitError "Daily limit reached. Please try again tomorrow.", st, [])
  else if pyStrip prompt = "" then
    (.emptyWarning "Please enter a statement to unpack.", st, [])
  else
    let st2 : SessionState := ⟨st.requests_today + 1⟩
    let user_input := truncateInput prompt
    let mr := match_category embed index user_input
    let lh := library_hint mr.1
    let output := match complete lh.2 user_input with
      | .ok out => out
      | .error e => "Error: " ++ e
    (.response output, st2, mr.2.map ExtCall.embedReq ++ [ExtCall.genReq lh.2 user_input])

/-- The session state after a sequence of submissions. -/
noncomputable def runGo (embed : String → Option (List ℝ))
    (complete : String → String → Except String String)
    (index : List IndexedItem) : SessionState → List String → SessionState
  | st, [] => st
  | st, p :: ps => runGo embed complete index (handleGo embed complete index st p).2.1 ps

/-- Whether every submission in the sequence produced a generated
response (as opposed to a limit error or an empty-input warning). -/
noncomputable def allResponsesB (embed : String → Option (List ℝ))
    (complete : String → String → Except String String)
    (index : List IndexedItem) : SessionState → List String → Bool
  | _, [] => true
  | st, p :: ps =>
    match (handleGo embed complete index st p).1 with
    | .response _ => allResponsesB embed complete index (handleGo embed complete index st p).2.1 ps
    | _ => false

/-! Concrete fixtures used to instantiate the theorems below. -/

/-- An embedding service that answers every request with the vector `[1]`. -/
def embedOne : String → Option (List ℝ) := fun _ => some [1]

/-- An embedding service whose every request raises. -/
def embedFail : String → Option (List ℝ) := fun _ => none

/-- A generation service that always answers `"ok"`. -/
def okComplete : String → String → Except String String := fun _ _ => .ok "ok"

/-- A sample principle. -/
def principleA : Principle := ⟨"autonomy", "People can decide for themselves."⟩

/-- A sample entry. -/
def entryFair : Entry :=
  ⟨some "fairness", ["fairness", "equity"], .str "This is unfair",
    .list ["r1", "r2", "r3"], ["What standard of fairness are you assuming?", "q2", "q3"]⟩

/-- A second sample entry. -/
def entryEquity : Entry := ⟨some "equity", ["equity"], .list ["e1"], .str "r", ["qa"]⟩

/-- An index record for `entryFair` with embedding `[1]`. -/
def itemFair : IndexedItem := ⟨"entry", .ofEntry entryFair, [1]⟩

/-- An index record for `entryEquity` with embedding `[1]`. -/
def itemEquity : IndexedItem := ⟨"entry", .ofEntry entryEquity, [1]⟩

/-- An index record for `principleA` with embedding `[-1]`. -/
def itemPrinNeg : IndexedItem := ⟨"principle", .ofPrinciple principleA, [-1]⟩

/-- A 4001-character prompt. -/
def promptLong : String := String.mk (List.replicate 4001 'a')

/-! Arithmetic facts about the embedded `cosine_similarity`. -/

theorem sumSq_nonneg (a : List ℝ) : 0 ≤ sumSq a := by
  induction a with
  | nil => simp [sumSq]
  | cons x xs ih => simp only [sumSq]; nlinarith [mul_self_nonneg x]

theorem norm2_nonneg (a : List ℝ) : 0 ≤ norm2 a :=
  Real.sqrt_nonneg _

theorem dot_sq_le_sumSq_mul (a : List ℝ) : ∀ b : List ℝ, dot a b ^ 2 ≤ sumSq a * sumSq b := by
  induction a with
  | nil =>
    intro b
    simp [dot, sumSq]
  | cons x xs ih =>
    intro b
    cases b with
    | nil =>
      have := sumSq_nonneg (x :: xs)
      simp only [dot, sumSq]
      nlinarith [sumSq_nonneg xs, mul_self_nonneg x]
    | cons y ys =>
      have h1 := ih ys
      have h2 := sumSq_nonneg xs
      have h3 := sumSq_nonneg ys
      simp only [dot, sumSq]
      have h5 : 0 ≤ x ^ 2 * sumSq ys + y ^ 2 * sumSq xs := by positivity
      have h4 : (2 * x * y * dot xs ys) ^ 2 ≤ (x ^ 2 * sumSq ys + y ^ 2 * sumSq xs) ^ 2 := by
        nlinarith [sq_nonneg (x ^ 2 * sumSq ys - y ^ 2 * sumSq xs), sq_nonneg (x * y), h1]
      have h6 : 2 * x * y * dot xs ys ≤ x ^ 2 * sumSq ys + y ^ 2 * sumSq xs := by
        nlinarith [h4, h5]
      nlinarith [h1, h6]

theorem abs_dot_le (a b : List ℝ) : |dot a b| ≤ norm2 a * norm2 b := by
  calc |dot a b| = Real.sqrt (dot a b ^ 2) := (Real.sqrt_sq_eq_abs _).symm
    _ ≤ Real.sqrt (sumSq a * sumSq b) := Real.sqrt_le_sqrt (dot_sq_le_sumSq_mul a b)
    _ = norm2 a * norm2 b := by rw [norm2, norm2, Real.sqrt_mul (sumSq_nonneg a)]

theorem abs_cos_le_one (a b : List ℝ) : |cosine_similarity a b| ≤ 1 := by
  unfold cosine_similarity
  rcases eq_or_lt_of_le (mul_nonneg (norm2_nonneg a) (norm2_nonneg b)) with h | h
  · rw [← h, div_zero, abs_zero]
    norm_num
  · rw [abs_div, abs_of_pos h, div_le_one h]
    exact abs_dot_le a b

theorem neg_one_le_cos (a b : List ℝ) : -1 ≤ cosine_similarity a b :=
  (abs_le.mp (abs_cos_le_one a b)).1

theorem cos_le_one (a b : List ℝ) : cosine_similarity a b ≤ 1 :=
  (abs_le.mp (abs_cos_le_one a b)).2

theorem cos_one_one : cosine_similarity [(1 : ℝ)] [(1 : ℝ)] = 1 := by
  norm_num [cosine_similarity, dot, norm2, sumSq, Real.sqrt_one]

/-! Characterization of the running-best scan of `match_category`. -/

theorem scanLoop_score (q : List ℝ) (l : List IndexedItem) :
    ∀ best bs, (scanLoop q l best bs).2 =
      l.foldl (fun acc rec => max acc (cosine_similarity q rec.embedding)) bs := by
  induction l with
  | nil => intro best bs; rfl
  | cons r rest ih =>
    intro best bs
    simp only [scanLoop, List.foldl]
    by_cases h : bs < cosine_similarity q r.embedding
    · rw [if_pos h, ih, max_eq_right h.le]
    · rw [if_neg h, ih, max_eq_left (not_lt.mp h)]

theorem scanLoop_result (q : List ℝ) (l : List IndexedItem) :
    ∀ best bs, scanLoop q l best bs = (best, bs) ∨
      ∃ r ∈ l, scanLoop q l best bs = (some r, cosine_similarity q r.embedding) := by
  induction l with
  | nil => intro best bs; exact Or.inl rfl
  | cons r rest ih =>
    intro best bs
    simp only [scanLoop]
    by_cases h : bs < cosine_similarity q r.embedding
    · rw [if_pos h]
      rcases ih (some r) (cosine_similarity q r.embedding) with h1 | ⟨s, hs, h1⟩
      · exact Or.inr ⟨r, List.mem_cons_self r rest, h1⟩
      · exact Or.inr ⟨s, List.mem_cons_of_mem r hs, h1⟩
    · rw [if_neg h]
      rcases ih best bs with h1 | ⟨s, hs, h1⟩
      · exact Or.inl h1
      · exact Or.inr ⟨s, List.mem_cons_of_mem r hs, h1⟩

theorem scanLoop_const_of_le (q : List ℝ) (l : List IndexedItem) :
    ∀ best bs, (∀ r ∈ l, cosine_similarity q r.embedding ≤ bs) →
      scanLoop q l best bs = (best, bs) := by
  induction l with
  | nil => intro best bs _; rfl
  | cons r rest ih =>
    intro best bs h
    simp only [scanLoop]
    rw [if_neg (not_lt.mpr (h r (List.mem_cons_self r rest)))]
    exact ih best bs fun s hs => h s (List.mem_cons_of_mem r hs)

theorem scanLoop_append (q : List ℝ) (l1 l2 : List IndexedItem) :
    ∀ best bs, scanLoop q (l1 ++ l2) best bs =
      scanLoop q l2 (scanLoop q l1 best bs).1 (scanLoop q l1 best bs).2 := by
  induction l1 with
  | nil => intro best bs; rfl
  | cons r rest ih =>
    intro best bs
    simp only [List.cons_append, scanLoop, List.append_eq]
    by_cases h : bs < cosine_similarity q r.embedding
    · simp only [if_pos h]
      exact ih _ _
    · simp only [if_neg h]
      exact ih _ _

theorem scanLoop_score_lt (q : List ℝ) (l : List IndexedItem) (s : ℝ) :
    ∀ best bs, bs < s → (∀ r ∈ l, cosine_similarity q r.embedding < s) →
      (scanLoop q l best bs).2 < s := by
  induction l with
  | nil => intro best bs h _; exact h
  | cons r rest ih =>
    intro best bs h hall
    simp only [scanLoop]
    by_cases hr : bs < cosine_similarity q r.embedding
    · rw [if_pos hr]
      exact ih _ _ (hall r (List.mem_cons_self r rest)) fun t ht => hall t (List.mem_cons_of_mem r ht)
    · rw [if_neg hr]
      exact ih best bs h fun t ht => hall t (List.mem_cons_of_mem r ht)

theorem le_foldl_max (l : List ℝ) : ∀ b : ℝ, b ≤ l.foldl max b := by
  induction l with
  | nil => intro b; exact le_refl b
  | cons x xs ih => intro b; exact le_trans (le_max_left b x) (ih (max b x))

theorem mem_le_foldl_max (l : List ℝ) : ∀ (b x : ℝ), x ∈ l → x ≤ l.foldl max b := by
  induction l with
  | nil => intro b x hx; exact absurd hx (List.not_mem_nil x)
  | cons y ys ih =>
    intro b x hx
    rcases List.mem_cons.mp hx with h | h
    · subst h
      exact le_trans (le_max_right b x) (le_foldl_max ys (max b x))
    · exact ih (max b y) x h

theorem foldl_max_result (l : List ℝ) : ∀ b : ℝ, l.foldl max b = b ∨ ∃ x ∈ l, l.foldl max b = x := by
  induction l with
  | nil => intro b; exact Or.inl rfl
  | cons y ys ih =>
    intro b
    rcases ih (max b y) with h | ⟨x, hx, h⟩
    · rcases max_cases b y with ⟨he, _⟩ | ⟨he, _⟩
      · exact Or.inl (by rw [List.foldl_cons, h, he])
      · exact Or.inr ⟨y, List.mem_cons_self y ys, by rw [List.foldl_cons, h, he]⟩
    · exact Or.inr ⟨x, List.mem_cons_of_mem y hx, by rw [List.foldl_cons, h]⟩

theorem best_score_of_eq_scan (q : List ℝ) (index : List IndexedItem) :
    best_score_of q index = (scanLoop q index none (-1)).2 := by
  rw [best_score_of, scanLoop_score, List.foldl_map]

theorem guard_false (text : String) (index : List IndexedItem)
    (htext : text ≠ "") (hidx : index ≠ []) :
    (text = "" || index.isEmpty) = false := by
  cases index with
  | nil => exact absurd rfl hidx
  | cons a l => simp [htext]

/-- C4: for an empty query text or an empty embedding index — in
particular for the index built from a library with zero entries and zero
principles — `match_category` returns `None` immediately and the request
trace is empty (no embedding request is issued). -/
theorem match_category_empty_guard :
    (∀ (embed : String → Option (List ℝ)) (index : List IndexedItem) (text : String)
        (threshold : ℝ), text = "" ∨ index = [] →
        match_category embed index text threshold = (none, [])) ∧
    (∀ embed : String → Option (List ℝ),
        build_library_embeddings embed ⟨[], []⟩ = ([], [])) := by
  constructor
  · intro embed index text threshold h
    have hg : (text = "" || index.isEmpty) = true := by
      rcases h with h | h
      · simp [h]
      · simp [h]
    simp [match_category, hg]
  · intro embed
    rfl

/-- Closed instance of the C4 theorem: a non-empty query against the
index of the empty library is answered `None` with no embedding request. -/
theorem match_category_empty_guard_witness :
    (("Is this fair?" : String) = "" ∨
        (build_library_embeddings embedOne ⟨[], []⟩).1 = ([] : List IndexedItem)) ∧
    match_category embedOne (build_library_embeddings embedOne ⟨[], []⟩).1 "Is this fair?" 0.70 =
      (none, []) :=
  ⟨Or.inr rfl,
    match_category_empty_guard.1 embedOne (build_library_embeddings embedOne ⟨[], []⟩).1
      "Is this fair?" 0.70 (Or.inr rfl)⟩

/-- C3: when the query-embedding request raises, `match_category`
catches the error and returns `None` (fail open), still producing a
value for the interaction. -/
theorem match_category_embed_failure (embed : String → Option (List ℝ))
    (index : List IndexedItem) (text : String) (threshold : ℝ)
    (htext : text ≠ "") (hidx : index ≠ []) (hfail : embed text = none) :
    match_category embed index text threshold = (none, [text]) := by
  simp [match_category, guard_false text index htext hidx, hfail]

/-- Closed instance of the C3 theorem at a concrete failing embedding
service. -/
theorem match_category_embed_failure_witness :
    ("hi" : String) ≠ "" ∧ [itemFair] ≠ [] ∧ embedFail "hi" = none ∧
    match_category embedFail [itemFair] "hi" 0.70 = (none, ["hi"]) :=
  ⟨by decide, by simp, rfl,
    match_category_embed_failure embedFail [itemFair] "hi" 0.70 (by decide) (by simp) rfl⟩

/-- C1: with the query embedding obtained and a non-empty index, the
final `best_score` dominates the similarity of every indexed item; if it
reaches the threshold (inclusive bound; the default 0.70 satisfies the
`-1 < threshold` premise, cosine scores being at least `-1`) the item
attaining it is returned as the match, and if it is strictly below the
threshold the result is `None`. -/
theorem match_category_threshold_inclusive (embed : String → Option (List ℝ))
    (index : List IndexedItem) (text : String) (threshold : ℝ) (q : List ℝ)
    (htext : text ≠ "") (hidx : index ≠ []) (hemb : embed text = some q)
    (hth : -1 < threshold) :
    (∀ r ∈ index, cosine_similarity q r.embedding ≤ best_score_of q index) ∧
    (threshold ≤ best_score_of q index →
      ∃ r ∈ index, cosine_similarity q r.embedding = best_score_of q index ∧
        match_category embed index text threshold = (some (r.kind, r.item), [text])) ∧
    (best_score_of q index < threshold →
      match_category embed index text threshold = (none, [text])) := by
  have hg := guard_false text index htext hidx
  refine ⟨?_, ?_, ?_⟩
  · intro r hr
    rw [best_score_of]
    exact mem_le_foldl_max _ _ _ (List.mem_map_of_mem _ hr)
  · intro hacc
    rcases scanLoop_result q index none (-1) with hres | ⟨r, hr, hres⟩
    · exfalso
      rw [best_score_of_eq_scan, hres] at hacc
      simp only [] at hacc
      have : threshold ≤ -1 := hacc
      linarith
    · have hsim : cosine_similarity q r.embedding = best_score_of q index := by
        rw [best_score_of_eq_scan, hres]
      refine ⟨r, hr, hsim, ?_⟩
      have hif : threshold ≤ cosine_similarity q r.embedding :=
        le_of_le_of_eq hacc hsim.symm
      simp [match_category, hg, hemb, hres, hif]
  · intro hrej
    rcases scanLoop_result q index none (-1) with hres | ⟨r, hr, hres⟩
    · simp [match_category, hg, hemb, hres]
    · have hlt : (scanLoop q index none (-1)).2 < threshold := by
        rw [← best_score_of_eq_scan]
        exact hrej
      rw [hres] at hlt
      simp [match_category, hg, hemb, hres, not_le.mpr hlt]

/-- Closed instance of the C1 theorem: a one-item index whose similarity
to the query is 1 clears the 0.70 threshold and is returned. -/
theorem match_category_threshold_inclusive_witness :
    ("hi" : String) ≠ "" ∧ [itemFair] ≠ [] ∧ embedOne "hi" = some [(1 : ℝ)] ∧
    (-1 : ℝ) < 0.70 ∧ (0.70 : ℝ) ≤ best_score_of [(1 : ℝ)] [itemFair] ∧
    (∃ r ∈ [itemFair], cosine_similarity [(1 : ℝ)] r.embedding = best_score_of [(1 : ℝ)] [itemFair] ∧
      match_category embedOne [itemFair] "hi" 0.70 = (some (r.kind, r.item), ["hi"])) := by
  have hb : best_score_of [(1 : ℝ)] [itemFair] = 1 := by
    simp [best_score_of, itemFair, cos_one_one]
  exact ⟨by decide, by simp, rfl, by norm_num, by rw [hb]; norm_num,
    (match_category_threshold_inclusive embedOne [itemFair] "hi" 0.70 [1]
      (by decide) (by simp) rfl (by norm_num)).2.1 (by rw [hb]; norm_num)⟩

theorem processItems_append (embed : String → Option (List ℝ)) (l1 l2 : List (String × LibItem)) :
    processItems embed (l1 ++ l2) =
      ((processItems embed l1).1 ++ (processItems embed l2).1,
       (processItems embed l1).2 ++ (processItems embed l2).2) := by
  induction l1 with
  | nil => simp [processItems]
  | cons pair rest ih =>
    simp only [List.cons_append, processItems]
    by_cases h : itemText pair = ""
    · simp [h, ih]
    · cases hemb : embed (itemText pair) with
      | none => simp [h, hemb, ih]
      | some emb => simp [h, hemb, ih]

/-- C2: the scan returns the first item attaining the maximal similarity
(strict improvement only, so ties keep the earlier item), and the index
is built in declared order: all entries in file order, then all
principles in file order. -/
theorem match_category_first_best_wins :
    (∀ (embed : String → Option (List ℝ)) (index : List IndexedItem) (text : String)
        (threshold : ℝ) (q : List ℝ) (l1 : List IndexedItem) (r : IndexedItem)
        (l2 : List IndexedItem),
      text ≠ "" → embed text = some q → -1 < threshold →
      index = l1 ++ r :: l2 →
      (∀ s ∈ l1, cosine_similarity q s.embedding < cosine_similarity q r.embedding) →
      (∀ s ∈ l2, cosine_similarity q s.embedding ≤ cosine_similarity q r.embedding) →
      threshold ≤ cosine_similarity q r.embedding →
      match_category embed index text threshold = (some (r.kind, r.item), [text])) ∧
    (∀ (embed : String → Option (List ℝ)) (lib : Library),
      build_library_embeddings embed lib =
        ((processItems embed (lib.entries.map (fun e => ("entry", LibItem.ofEntry e)))).1
          ++ (processItems embed (lib.general_principles.map (fun p => ("principle", LibItem.ofPrinciple p)))).1,
         (processItems embed (lib.entries.map (fun e => ("entry", LibItem.ofEntry e)))).2
          ++ (processItems embed (lib.general_principles.map (fun p => ("principle", LibItem.ofPrinciple p)))).2)) := by
  constructor
  · intro embed index text threshold q l1 r l2 htext hemb hth hix hl1 hl2 hthr
    have hidx : index ≠ [] := by
      rw [hix]
      exact List.append_ne_nil_of_right_ne_nil l1 (List.cons_ne_nil r l2)
    have hg := guard_false text index htext hidx
    have hsimr : -1 < cosine_similarity q r.embedding := lt_of_lt_of_le hth hthr
    have hlt1 : (scanLoop q l1 none (-1)).2 < cosine_similarity q r.embedding :=
      scanLoop_score_lt q l1 (cosine_similarity q r.embedding) none (-1) hsimr hl1
    have hscan : scanLoop q index none (-1) = (some r, cosine_similarity q r.embedding) := by
      rw [hix, scanLoop_append]
      simp only [scanLoop, if_pos hlt1]
      exact scanLoop_const_of_le q l2 (some r) (cosine_similarity q r.embedding) hl2
    simp [match_category, hg, hemb, hscan, hthr]
  · intro embed lib
    rw [build_library_embeddings, processItems_append]

/-- Closed instance of the C2 theorem: two entries tied at similarity 1;
the first (in index order) is returned. -/
theorem match_category_first_best_wins_witness :
    ("hi" : String) ≠ "" ∧ embedOne "hi" = some [(1 : ℝ)] ∧ (-1 : ℝ) < 0.70 ∧
    ([itemFair, itemEquity] : List IndexedItem) = [] ++ itemFair :: [itemEquity] ∧
    (∀ s ∈ ([] : List IndexedItem),
      cosine_similarity [(1 : ℝ)] s.embedding < cosine_similarity [(1 : ℝ)] itemFair.embedding) ∧
    (∀ s ∈ [itemEquity],
      cosine_similarity [(1 : ℝ)] s.embedding ≤ cosine_similarity [(1 : ℝ)] itemFair.embedding) ∧
    (0.70 : ℝ) ≤ cosine_similarity [(1 : ℝ)] itemFair.embedding ∧
    match_category embedOne [itemFair, itemEquity] "hi" 0.70 =
      (some (itemFair.kind, itemFair.item), ["hi"]) := by
  have hfair : cosine_similarity [(1 : ℝ)] itemFair.embedding = 1 := by
    rw [itemFair]
    exact cos_one_one
  have hl2 : ∀ s ∈ [itemEquity],
      cosine_similarity [(1 : ℝ)] s.embedding ≤ cosine_similarity [(1 : ℝ)] itemFair.embedding := by
    intro s hs
    rw [List.mem_singleton.mp hs, hfair, itemEquity]
    exact le_of_eq cos_one_one
  have hthr : (0.70 : ℝ) ≤ cosine_similarity [(1 : ℝ)] itemFair.embedding := by
    rw [hfair]
    norm_num
  exact ⟨by decide, rfl, by norm_num, rfl, by simp, hl2, hthr,
    match_category_first_best_wins.1 embedOne [itemFair, itemEquity] "hi" 0.70 [1]
      [] itemFair [itemEquity] (by decide) rfl (by norm_num) rfl (by simp) hl2 hthr⟩

/-- C5: the index builder requests an embedding exactly for each item
whose composite text (name + description for a principle; topic,
space-joined tags and coerced sample claims for an entry, as computed by
`itemText`) is non-empty after trimming, in order; every produced
record comes from such an item with its embedding answering that
request; and an item with an empty composite text changes nothing (no
request, no record). -/
theorem build_composite_and_skip :
    (∀ (embed : String → Option (List ℝ)) (l : List (String × LibItem)),
      (processItems embed l).2 = (l.map itemText).filter (fun t => t ≠ "")) ∧
    (∀ (embed : String → Option (List ℝ)) (l : List (String × LibItem))
        (rec : IndexedItem), rec ∈ (processItems embed l).1 →
      ∃ pair ∈ l, rec.kind = pair.1 ∧ rec.item = pair.2 ∧
        itemText pair ≠ "" ∧ embed (itemText pair) = some rec.embedding) ∧
    (∀ (embed : String → Option (List ℝ)) (pair : String × LibItem)
        (rest : List (String × LibItem)), itemText pair = "" →
      processItems embed (pair :: rest) = processItems embed rest) := by
  refine ⟨?_, ?_, ?_⟩
  · intro embed l
    induction l with
    | nil => rfl
    | cons pair rest ih =>
      simp only [processItems, List.map_cons, List.filter_cons]
      by_cases h : itemText pair = ""
      · simp [h, ih]
      · cases hemb : embed (itemText pair) with
        | none => simp [h, hemb, ih]
        | some emb => simp [h, hemb, ih]
  · intro embed l
    induction l with
    | nil =>
      intro rec hrec
      exact absurd hrec (List.not_mem_nil rec)
    | cons pair rest ih =>
      intro rec hrec
      simp only [processItems] at hrec
      by_cases h : itemText pair = ""
      · rw [if_pos h] at hrec
        obtain ⟨p, hp, hrest⟩ := ih rec hrec
        exact ⟨p, List.mem_cons_of_mem pair hp, hrest⟩
      · rw [if_neg h] at hrec
        cases hemb : embed (itemText pair) with
        | none =>
          rw [hemb] at hrec
          obtain ⟨p, hp, hrest⟩ := ih rec hrec
          exact ⟨p, List.mem_cons_of_mem pair hp, hrest⟩
        | some emb =>
          rw [hemb] at hrec
          rcases List.mem_cons.mp hrec with hhead | htail
          · subst hhead
            exact ⟨pair, List.mem_cons_self pair rest, rfl, rfl, h, hemb⟩
          · obtain ⟨p, hp, hrest⟩ := ih rec htail
            exact ⟨p, List.mem_cons_of_mem pair hp, hrest⟩
  · intro embed pair rest h
    simp [processItems, h]

/-- Closed instance of the C5 theorem: the record built for a sample
entry points back to it with the embedding the service answered for its
composite text, and an all-empty entry is skipped. -/
theorem build_composite_and_skip_witness :
    ((⟨"entry", .ofEntry entryFair, [1]⟩ : IndexedItem) ∈
        (processItems embedOne [("entry", .ofEntry entryFair)]).1) ∧
    (∃ pair ∈ [(("entry" : String), LibItem.ofEntry entryFair)],
      ("entry" : String) = pair.1 ∧ LibItem.ofEntry entryFair = pair.2 ∧
        itemText pair ≠ "" ∧ embedOne (itemText pair) = some [(1 : ℝ)]) ∧
    itemText ("entry", .ofEntry ⟨some "", [], .list [], .str "", []⟩) = "" ∧
    processItems embedOne [("entry", .ofEntry ⟨some "", [], .list [], .str "", []⟩)] =
      processItems embedOne [] := by
  have hmem : (⟨"entry", .ofEntry entryFair, [1]⟩ : IndexedItem) ∈
      (processItems embedOne [("entry", .ofEntry entryFair)]).1 := by
    have : (processItems embedOne [("entry", .ofEntry entryFair)]).1 =
        [⟨"entry", .ofEntry entryFair, [1]⟩] := rfl
    rw [this]
    exact List.mem_singleton.mpr rfl
  have hempty : itemText ("entry", .ofEntry ⟨some "", [], .list [], .str "", []⟩) = "" := by
    decide
  exact ⟨hmem,
    build_composite_and_skip.2.1 embedOne [("entry", .ofEntry entryFair)] _ hmem,
    hempty,
    build_composite_and_skip.2.2 embedOne ("entry", .ofEntry ⟨some "", [], .list [], .str "", []⟩) [] hempty⟩

/-- C6: the memoized builder — `@st.cache_resource` modelled as a cache
keyed by the (unchanged) library argument — answers a repeated call with
the cached record list and an empty request trace: no further embedding
request is issued. -/
theorem build_memoized_second_call (embed : String → Option (List ℝ))
    (cache : List (Library × List IndexedItem)) (lib : Library) :
    buildCached embed (buildCached embed cache lib).2.1 lib =
      ((buildCached embed cache lib).1, (buildCached embed cache lib).2.1, []) := by
  unfold buildCached
  cases hfind : cache.find? (fun p => p.1 = lib) with
  | some p =>
    simp only [hfind]
  | none =>
    simp only [hfind]
    have : (((lib, (build_library_embeddings embed lib).1) :: cache).find?
        (fun p => decide (p.1 = lib))) =
        some (lib, (build_library_embeddings embed lib).1) := by
      simp [List.find?_cons]
    simp [this]

/-- C7: the hint composer produces exactly the specified labels —
`Library-based (<topic>)` for an entry, `Library-based (principle:
<name>)` for a principle, `Inferred (no close library match)` with a
proceed-normally directive for no match — and for an entry its directive
reads at most the first two questions and the first two reflection
fragments (truncating the entry to those leaves the hint unchanged). -/
theorem library_hint_labels :
    (∀ e : Entry, (library_hint (some ("entry", .ofEntry e))).1 =
      "Library-based (" ++ e.topic.getD "entry" ++ ")") ∧
    (∀ p : Principle, (library_hint (some ("principle", .ofPrinciple p))).1 =
      "Library-based (principle: " ++ p.name ++ ")") ∧
    (library_hint none =
      ("Inferred (no close library match)",
       "Inferred (no close library match): No obvious library match; proceed normally.")) ∧
    (∀ e : Entry,
      library_hint (some ("entry", .ofEntry
        { e with questions := e.questions.take 2, reflection := reflTake2 e.reflection })) =
      library_hint (some ("entry", .ofEntry e))) := by
  refine ⟨fun e => rfl, fun p => rfl, rfl, ?_⟩
  intro e
  simp only [library_hint, reflTake2]
  cases hrefl : e.reflection with
  | str s => simp [List.take_take]
  | list l => simp [List.take_take]

theorem match_category_reqs (embed : String → Option (List ℝ)) (index : List IndexedItem)
    (text : String) (threshold : ℝ) :
    (match_category embed index text threshold).2 = [] ∨
    (match_category embed index text threshold).2 = [text] := by
  by_cases hg : (text = "" || index.isEmpty) = true
  · left
    simp [match_category, hg]
  · have hg2 : (text = "" || index.isEmpty) = false := Bool.eq_false_iff.mpr hg
    cases hemb : embed text with
    | none =>
      right
      simp [match_category, hg2, hemb]
    | some q =>
      cases hscan : (scanLoop q index none (-1)).1 with
      | none =>
        right
        simp [match_category, hg2, hemb, hscan]
      | some best =>
        by_cases hth : threshold ≤ (scanLoop q index none (-1)).2
        · right
          simp [match_category, hg2, hemb, hscan, hth]
        · right
          simp [match_category, hg2, hemb, hscan, hth]

theorem handleGo_limit (embed : String → Option (List ℝ))
    (complete : String → String → Except String String) (index : List IndexedItem)
    (st : SessionState) (prompt : String) (h : DAILY_LIMIT ≤ st.requests_today) :
    handleGo embed complete index st prompt =
      (.limitError "Daily limit reached. Please try again tomorrow.", st, []) := by
  simp [handleGo, h]

theorem handleGo_response_state (embed : String → Option (List ℝ))
    (complete : String → String → Except String String) (index : List IndexedItem)
    (st : SessionState) (prompt : String) (out : String)
    (h : (handleGo embed complete index st prompt).1 = .response out) :
    (handleGo embed complete index st prompt).2.1 = ⟨st.requests_today + 1⟩ := by
  by_cases h1 : DAILY_LIMIT ≤ st.requests_today
  · rw [handleGo_limit embed complete index st prompt h1] at h
    exact absurd h (by simp)
  · by_cases h2 : pyStrip prompt = ""
    · simp [handleGo, h1, h2] at h
    · simp [handleGo, h1, h2]

theorem runGo_counter (embed : String → Option (List ℝ))
    (complete : String → String → Except String String) (index : List IndexedItem)
    (ps : List String) :
    ∀ st : SessionState, allResponsesB embed complete index st ps = true →
      (runGo embed complete index st ps).requests_today = st.requests_today + ps.length := by
  induction ps with
  | nil =>
    intro st _
    simp [runGo]
  | cons p rest ih =>
    intro st h
    simp only [allResponsesB] at h
    cases hres : (handleGo embed complete index st p).1 with
    | response out =>
      rw [hres] at h
      simp only [runGo]
      rw [ih _ h, handleGo_response_state embed complete index st p out hres]
      simp only [List.length_cons]
      omega
    | limitError msg =>
      rw [hres] at h
      exact absurd h (by simp)
    | emptyWarning msg =>
      rw [hres] at h
      exact absurd h (by simp)

/-- C9: a submission finding the counter at or above the daily limit of
50 is rejected with a visible message, the state unchanged and zero
external calls issued; each generated response raises the counter by
exactly one, so after 50 responses from a fresh session the counter
stands at 50 and the 51st submission is rejected before any external
call. -/
theorem daily_limit_blocks :
    (∀ (embed : String → Option (List ℝ)) (complete : String → String → Except String String)
        (index : List IndexedItem) (st : SessionState) (prompt : String),
      DAILY_LIMIT ≤ st.requests_today →
      handleGo embed complete index st prompt =
        (.limitError "Daily limit reached. Please try again tomorrow.", st, [])) ∧
    (∀ (embed : String → Option (List ℝ)) (complete : String → String → Except String String)
        (index : List IndexedItem) (st : SessionState) (prompt out : String),
      (handleGo embed complete index st prompt).1 = .response out →
      ((handleGo embed complete index st prompt).2.1).requests_today = st.requests_today + 1) ∧
    (∀ (embed : String → Option (List ℝ)) (complete : String → String → Except String String)
        (index : List IndexedItem) (prompts : List String) (p : String),
      allResponsesB embed complete index ⟨0⟩ prompts = true →
      prompts.length = 50 →
      handleGo embed complete index (runGo embed complete index ⟨0⟩ prompts) p =
        (.limitError "Daily limit reached. Please try again tomorrow.",
         runGo embed complete index ⟨0⟩ prompts, [])) := by
  refine ⟨fun embed complete index st prompt h => handleGo_limit embed complete index st prompt h,
    ?_, ?_⟩
  · intro embed complete index st prompt out h
    rw [handleGo_response_state embed complete index st prompt out h]
  · intro embed complete index prompts p hall hlen
    have hcnt := runGo_counter embed complete index prompts ⟨0⟩ hall
    refine handleGo_limit embed complete index _ p ?_
    rw [hcnt, hlen]
    decide

/-- Closed instance of the C9 theorem: 50 non-empty submissions, each
producing a generated response, bring a fresh session to the limit; the
51st submission is rejected with no external call. -/
theorem daily_limit_blocks_witness :
    allResponsesB embedFail okComplete [] ⟨0⟩ (List.replicate 50 "x") = true ∧
    (List.replicate 50 "x").length = 50 ∧
    handleGo embedFail okComplete [] (runGo embedFail okComplete [] ⟨0⟩ (List.replicate 50 "x")) "y" =
      (.limitError "Daily limit reached. Please try again tomorrow.",
       runGo embedFail okComplete [] ⟨0⟩ (List.replicate 50 "x"), []) :=
  ⟨by decide, by simp,
    daily_limit_blocks.2.2 embedFail okComplete [] (List.replicate 50 "x") "y" (by decide) (by simp)⟩

/-- C8: for a stripped input longer than 4000 characters and a session
under the daily limit, the handler truncates to the first 4000
characters plus the visible marker, and every external call it issues —
the query-embedding request and the generation request alike — carries
only the truncated text. -/
theorem truncation_before_external_calls (embed : String → Option (List ℝ))
    (complete : String → String → Except String String) (index : List IndexedItem)
    (st : SessionState) (prompt : String)
    (hlim : st.requests_today < DAILY_LIMIT)
    (hlen : 4000 < (pyStrip prompt).length) :
    truncateInput prompt =
      String.mk ((pyStrip prompt).data.take 4000) ++ "\n\n[Truncated for length]" ∧
    ∀ c ∈ (handleGo embed complete index st prompt).2.2,
      callInput c =
        String.mk ((pyStrip prompt).data.take 4000) ++ "\n\n[Truncated for length]" := by
  have htr : truncateInput prompt =
      String.mk ((pyStrip prompt).data.take 4000) ++ "\n\n[Truncated for length]" := by
    rw [truncateInput]
    simp only [hlen, if_true, if_pos hlen]
  refine ⟨htr, ?_⟩
  have hne : pyStrip prompt ≠ "" := by
    intro h
    rw [h] at hlen
    exact absurd hlen (by decide)
  have hgo : (handleGo embed complete index st prompt).2.2 =
      (match_category embed index (truncateInput prompt) 0.70).2.map ExtCall.embedReq
        ++ [ExtCall.genReq
              (library_hint (match_category embed index (truncateInput prompt) 0.70).1).2
              (truncateInput prompt)] := by
    simp [handleGo, not_le.mpr hlim, hne]
  rw [hgo]
  intro c hc
  rcases List.mem_append.mp hc with hc | hc
  · obtain ⟨t, ht, rfl⟩ := List.mem_map.mp hc
    rcases match_category_reqs embed index (truncateInput prompt) 0.70 with h | h
    · rw [h] at ht
      exact absurd ht (List.not_mem_nil t)
    · rw [h] at ht
      rw [List.mem_singleton.mp ht, callInput, htr]
  · rw [List.mem_singleton.mp hc, callInput, htr]

theorem dropWhile_replicate (p : Char → Bool) (c : Char) (h : p c = false) (n : Nat) :
    (List.replicate n c).dropWhile p = List.replicate n c := by
  cases n with
  | zero => rfl
  | succ m =>
    rw [List.replicate_succ, List.dropWhile_cons, h]
    simp

theorem pyStrip_replicate (c : Char) (h : c.isWhitespace = false) (n : Nat) :
    pyStrip (String.mk (List.replicate n c)) = String.mk (List.replicate n c) := by
  have hd : (String.mk (List.replicate n c)).data = List.replicate n c := rfl
  rw [pyStrip, hd, dropWhile_replicate _ _ h, List.reverse_replicate,
    dropWhile_replicate _ _ h, List.reverse_replicate]

/-- Closed instance of the C8 theorem at a 4001-character prompt. -/
theorem truncation_before_external_calls_witness :
    (⟨0⟩ : SessionState).requests_today < DAILY_LIMIT ∧
    4000 < (pyStrip promptLong).length ∧
    (truncateInput promptLong =
        String.mk ((pyStrip promptLong).data.take 4000) ++ "\n\n[Truncated for length]" ∧
      ∀ c ∈ (handleGo embedFail okComplete [] ⟨0⟩ promptLong).2.2,
        callInput c =
          String.mk ((pyStrip promptLong).data.take 4000) ++ "\n\n[Truncated for length]") := by
  have hlen : 4000 < (pyStrip promptLong).length := by
    rw [promptLong, pyStrip_replicate 'a' (by decide)]
    have hl : (String.mk (List.replicate 4001 'a')).length = (List.replicate 4001 'a').length := rfl
    rw [hl, List.length_replicate]
    norm_num
  exact ⟨by decide, hlen,
    truncation_before_external_calls embedFail okComplete [] ⟨0⟩ promptLong (by decide) hlen⟩

/-- C10: `cosine_similarity` divides by the product of the two norms
with no guard: whenever either vector has zero norm the denominator is
zero (a division by zero); when both norms are nonzero the quotient is
well defined and lies in the interval from -1 to 1. -/
theorem cosine_similarity_unguarded (a b : List ℝ) :
    ((norm2 a = 0 ∨ norm2 b = 0) →
      norm2 a * norm2 b = 0 ∧ cosine_similarity a b = dot a b / 0) ∧
    (norm2 a ≠ 0 → norm2 b ≠ 0 →
      -1 ≤ cosine_similarity a b ∧ cosine_similarity a b ≤ 1) := by
  constructor
  · intro h
    have hz : norm2 a * norm2 b = 0 := by
      rcases h with h | h <;> simp [h]
    exact ⟨hz, by rw [cosine_similarity, hz]⟩
  · intro _ _
    exact ⟨neg_one_le_cos a b, cos_le_one a b⟩

/-- Closed instance of the C10 theorem: the empty vector has zero norm
and zeroes the denominator; the vector with one nonzero component has
nonzero norm and its self-similarity lies in the interval. -/
theorem cosine_similarity_unguarded_witness :
    (norm2 [] = 0 ∨ norm2 [(1 : ℝ)] = 0) ∧ norm2 [] * norm2 [(1 : ℝ)] = 0 ∧
    norm2 [(1 : ℝ)] ≠ 0 ∧
    (-1 ≤ cosine_similarity [(1 : ℝ)] [(1 : ℝ)] ∧ cosine_similarity [(1 : ℝ)] [(1 : ℝ)] ≤ 1) := by
  have h0 : norm2 ([] : List ℝ) = 0 := by
    simp [norm2, sumSq]
  have h1 : norm2 [(1 : ℝ)] = 1 := by
    norm_num [norm2, sumSq, Real.sqrt_one]
  have h1ne : norm2 [(1 : ℝ)] ≠ 0 := by
    rw [h1]
    norm_num
  exact ⟨Or.inl h0, ((cosine_similarity_unguarded [] [(1 : ℝ)]).1 (Or.inl h0)).1, h1ne,
    (cosine_similarity_unguarded [(1 : ℝ)] [(1 : ℝ)]).2 h1ne h1ne⟩

end MoralLogic
